import Mathlib

/-!
Verification of the GTCheck review tool (src/gtcheck/app.py) against its
natural-language specification.  The Python source is shallowly embedded as
executable Lean definitions: pure string helpers become functions on
List Char, and the Flask session workflow becomes explicit state passing over
a Session structure, with git operations recorded as an effect list.
-/

namespace GTCheck

/-! ## Basic string utilities used by the embedding -/

/-- Decide whether two given characters occur consecutively (in this order)
somewhere in the list.  Used to state absence of a two-character marker. -/
def hasPair (p1 p2 : Char) : List Char → Bool
  | c :: d :: rest => (c = p1 && d = p2) || hasPair p1 p2 (d :: rest)
  | _ => false

/-- Python str.replace for a two-character pattern: scan left to right,
replacing each non-overlapping occurrence of the pattern by repl.  The
replacement text is not rescanned, matching Python semantics. -/
def replace2 (p1 p2 : Char) (repl : List Char) : List Char → List Char
  | [] => []
  | [c] => [c]
  | c :: d :: rest =>
    if c = p1 ∧ d = p2 then repl ++ replace2 p1 p2 repl rest
    else c :: replace2 p1 p2 repl (d :: rest)

/-- Python substring containment test (pat in s). -/
def containsSub (pat : List Char) : List Char → Bool
  | [] => pat.isEmpty
  | c :: rest => pat.isPrefixOf (c :: rest) || containsSub pat rest

/-- Python lstrip(" "): remove leading space characters only. -/
def lstripSp (s : String) : String := (s.toList.dropWhile (fun c => c = ' ')).asString

/-- Split a character list at every newline, like Python split("\\n"). -/
def splitNl : List Char → List (List Char)
  | [] => [[]]
  | c :: rest =>
    if c = '\n' then [] :: splitNl rest
    else
      match splitNl rest with
      | h :: t => (c :: h) :: t
      | [] => [[c]]

/-- Embedding of the Python expression joining all lines but the first:
"".join(t.split("\n")[1:]), used on the decoded diff at app.py line 124. -/
def joinTail (t : String) : String := (((splitNl t.toList).drop 1).flatten).asString

/-- Python str.strip(): remove leading and trailing whitespace. -/
def stripWs (s : String) : String :=
  ((((s.toList.dropWhile Char.isWhitespace).reverse).dropWhile Char.isWhitespace).reverse).asString

/-! ## ModificationParser: the modifications function (app.py lines 22-40)

The regex (\[-(.*?)-\]|\x7b\+(.*?)\+\x7d) is embedded as an explicit
left-to-right scanner.  scanInner implements the non-greedy inner match
(.*?) up to the closing two-character sequence; the dot does not match a
newline, so a newline before the closing sequence aborts the alternative. -/

/-- Non-greedy scan for the closing pair c1 c2: returns the shortest
newline-free inner text together with the remainder after the closing pair. -/
def scanInner (c1 c2 : Char) : List Char → Option (List Char × List Char)
  | c :: d :: rest =>
    if c = c1 ∧ d = c2 then some ([], rest)
    else if c = '\n' then none
    else
      match scanInner c1 c2 (d :: rest) with
      | some (inner, r) => some (c :: inner, r)
      | none => none
  | _ => none

/-- One regex match: character span [mstart, mstop) and the two capture
groups (group 2: deletion inner text, group 3: insertion inner text). -/
structure DiffMatch where
  mstart : Nat
  mstop : Nat
  delTxt : Option (List Char)
  insTxt : Option (List Char)
  deriving DecidableEq, Repr

/-- Fuelled scanner for re.finditer over the diff marker regex: at each
position try the deletion alternative, then the insertion alternative,
else advance one character.  Matches are non-overlapping, leftmost. -/
def findMatchesF : Nat → Nat → List Char → List DiffMatch
  | 0, _, _ => []
  | _ + 1, _, [] => []
  | fuel + 1, pos, c :: rest =>
    if c = '[' ∧ rest.head? = some '-' then
      match scanInner '-' ']' rest.tail with
      | some (inner, rest3) =>
        ⟨pos, pos + inner.length + 4, some inner, none⟩ ::
          findMatchesF fuel (pos + inner.length + 4) rest3
      | none => findMatchesF fuel (pos + 1) rest
    else if c = '{' ∧ rest.head? = some '+' then
      match scanInner '+' '}' rest.tail with
      | some (inner, rest3) =>
        ⟨pos, pos + inner.length + 4, none, some inner⟩ ::
          findMatchesF fuel (pos + inner.length + 4) rest3
      | none => findMatchesF fuel (pos + 1) rest
    else findMatchesF fuel (pos + 1) rest

/-- All marker matches of a diff text, left to right. -/
def findMatches (s : List Char) : List DiffMatch := findMatchesF s.length 0 s

/-- The loop body of modifications: mods accumulator is kept reversed.
Mirrors app.py lines 29-40 including the merge rule (an insertion match
directly adjacent to the previous match fills an empty replacement side
instead of appending, and last_pos is not updated in that case). -/
def modsGo : List DiffMatch → List (List Char × List Char) → Nat → List (List Char × List Char)
  | [], acc, _ => acc.reverse
  | m :: ms, acc, lastPos =>
    let sub := m.delTxt.getD []
    let add := m.insTxt.getD []
    match acc with
    | (o, r) :: accTl =>
      if add ≠ [] ∧ lastPos = m.mstart ∧ r = [] then
        modsGo ms ((o, add) :: accTl) lastPos
      else
        modsGo ms ((sub, add) :: (o, r) :: accTl) m.mstop
    | [] => modsGo ms [(sub, add)] m.mstop

/-- app.py modifications: extract (original, replacement) pairs from a
marker-annotated diff text.  Initial last_pos is 1 as in the source. -/
def modifications (difftext : String) : List (String × String) :=
  (modsGo (findMatches difftext.toList) [] 1).map (fun p => (p.1.asString, p.2.asString))

/-! ## DiffRenderer: color_diffs (app.py lines 43-52) -/

def spanGreen : List Char := "<span style=\"color:green\">".toList

def spanRed : List Char := "<span style=\"color:red\">".toList

def spanClose : List Char := "</span>".toList

/-- The four sequential str.replace passes of color_diffs on a char list. -/
def colorList (l : List Char) : List Char :=
  replace2 '-' ']' spanClose
    (replace2 '[' '-' spanRed
      (replace2 '+' '}' spanClose
        (replace2 '{' '+' spanGreen l)))

/-- app.py color_diffs: wrap insertion markers in a green span and deletion
markers in a red span. -/
def color_diffs (difftext : String) : String := (colorList difftext.toList).asString

/-! ## pop_idx (app.py lines 244-253) -/

/-- app.py pop_idx: remove the element at the given index if the index is in
range, otherwise leave the list unchanged.  (Session list access is modelled
by passing the list itself.) -/
def pop_idx {α : Type} (l : List α) (popidx : Nat) : List α :=
  if popidx < l.length then l.eraseIdx popidx else l

/-! ## The review session state machine (gtcheck / gtcheckedit)

The Flask session dictionary becomes a Session record; the git repository as
seen by one request becomes a Repo snapshot (its index.diff items and the
cached-diff summary); calls into git, the filesystem and the logger become a
list of GitEffect values.  Fallible outside-world operations (utf-8 decode of the
per-file diff, the content-hash fallback diff) are oracle fields of FileInfo
carrying their Python outcome as an Except value. -/

instance exceptDecEq {ε α : Type} [DecidableEq ε] [DecidableEq α] :
    DecidableEq (Except ε α)
  | .ok a, .ok b =>
    if h : a = b then .isTrue (by rw [h]) else .isFalse (by simp [h])
  | .ok _, .error _ => .isFalse (by simp)
  | .error _, .ok _ => .isFalse (by simp)
  | .error a, .error b =>
    if h : a = b then .isTrue (by rw [h]) else .isFalse (by simp [h])

/-- One item of repo.index.diff(None) for a tracked ground-truth file. -/
structure FileInfo where
  path : String
  aBlob : Option String
  hasBBlob : Bool
  bPath : Option String
  worktext : String
  newFile : Bool
  deletedFile : Bool
  diffRaw : Except String String
  fallback : Except String String
  mergeDiff : String
  deriving DecidableEq, Repr

/-- Snapshot of the repository during one request: the changed files and the
output of git diff cached shortstat (first word; empty when nothing staged). -/
structure Repo where
  files : List FileInfo
  diffhead : String
  deriving DecidableEq, Repr

/-- The session cookie state used by gtcheck and gtcheckedit. -/
structure Session where
  difflist : List (Option String)
  skip : Nat
  difflen : Int
  modtype : String
  modtext : String
  fpath : String
  fileidx : Nat
  undoFpath : String
  undoValue : String
  vkeylang : String
  gesamt : Int
  bearbeitet : Int
  skipcc : Bool
  addcc : Bool
  deriving DecidableEq, Repr

/-- Externally visible operations performed while handling a request. -/
inductive GitEffect where
  | add (path : String)
  | commit (msg : String)
  | rm (path : String)
  | checkout (path : String)
  | resetPath (path : String)
  | writeFile (path : String) (content : String)
  | reserveWrite (gesamt bearbeitet : Int)
  | setName (v : String)
  | setEmail (v : String)
  | warn (msg : String)
  deriving DecidableEq, Repr

/-- The data handed to the gtcheck template that the claims talk about. -/
structure Page where
  shown : Option String
  filesLeft : Int
  skipped : Nat
  diffcolored : String
  commitmsg : String
  origtext : String
  modtext : String
  deriving DecidableEq, Repr

/-- The POST form read by gtcheckedit. -/
structure Form where
  selection : String
  commitmsg : String
  modtext : String
  vkeylang : String
  name : Option String
  email : Option String
  undo : Bool
  deriving DecidableEq, Repr

/-- Result of one request handler: a rendered gtcheck page, the nofile page,
an uncaught Python exception, or recursion fuel exhaustion.  Each carries the
effects performed so far. -/
inductive Outcome where
  | render (p : Page) (s : Session) (effs : List GitEffect)
  | nofile (s : Session) (effs : List GitEffect)
  | errorOut (effs : List GitEffect)
  | fuelOut (effs : List GitEffect)
  deriving DecidableEq, Repr

/-- The session reaching the client, when the request completed normally. -/
def Outcome.stateOf : Outcome → Option Session
  | .render _ s _ => some s
  | .nofile s _ => some s
  | _ => none

/-- All effects recorded in an outcome. -/
def Outcome.effectsOf : Outcome → List GitEffect
  | .render _ _ e => e
  | .nofile _ e => e
  | .errorOut e => e
  | .fuelOut e => e

/-- app.py get_difftext (lines 108-134): merge-marker branch uses the
content-hash diff oracle; otherwise decode the word diff, on failure fall
back to the content-hash diff of original vs working text, on a second
failure return the empty diff.  Returns the diff together with the logged
warnings. -/
def get_difftext (origtext : String) (item : FileInfo) : String × List String :=
  if containsSub "<<<<<<< HEAD\n".toList origtext.toList then (item.mergeDiff, [])
  else
    match item.diffRaw with
    | .ok t => (joinTail t, [])
    | .error e1 =>
      let w1 := "File:" ++ item.path ++ " Warning the diff text could not be decoded! Error:" ++ e1
      match item.fallback with
      | .ok t2 => (t2, [w1])
      | .error e2 =>
        ("", [w1, "File:" ++ item.path ++ " Both files could not be compared! Error:" ++ e2])

/-- The fixed replacement markup shown for an untracked file (line 179). -/
def newFileMsg : String :=
  "<span style=\x27color:green\x27>This untracked file gets added when committed and deleted when stashed!</span>"

/-- The fixed replacement markup shown for a deleted file (line 183). -/
def delFileMsg : String :=
  "<span style=\x27color:red\x27>This file gets deleted when committed and restored when stashed!</span>"

/-- Result of processing one queue entry inside the gtcheck loop: continue
with the next entry, return a rendered page, or raise. -/
inductive FileStep where
  | contStep (s : Session) (effs : List GitEffect)
  | shownStep (p : Page) (s : Session) (effs : List GitEffect)
  | errStep
  deriving DecidableEq, Repr

/-- One iteration of the for loop of gtcheck (app.py lines 162-231) on the
queue entry filename? at enumerate index fidx with nextcounter nc. -/
def gtcheckFile (repo : Repo) (diffhead : Bool) (filename? : Option String)
    (fidx nc : Nat) (s : Session) : FileStep :=
  match filename? with
  | none => .errStep
  | some filename =>
    match repo.files.find? (fun f => f.path == filename) with
    | none => .errStep
    | some item =>
      if item.aBlob = none ∧ item.hasBBlob = false then
        .contStep { s with difflist := pop_idx s.difflist (s.skip + fidx) } []
      else
        match item.aBlob with
        | none => .errStep
        | some ablob =>
          let s1 := { s with modtype := "mod" }
          let mergetext : List String := []
          let origtext := lstripSp ablob
          let dw := get_difftext origtext item
          let difftext := dw.1
          let warnEffs := dw.2.map GitEffect.warn
          let diffcolored := color_diffs difftext
          let isNew := (origtext = "" ∧ item.deletedFile = false) ∨ item.newFile = true
          let mt1 := if isNew then "new" else s1.modtype
          let dc1 := if isNew then newFileMsg else diffcolored
          let tmd : String × String × String :=
            if item.deletedFile = true ∨ item.bPath = none then ("del", "", delFileMsg)
            else if mergetext ≠ [] then ("merge", (mergetext.getD 1 ""), dc1)
            else (mt1, lstripSp item.worktext, dc1)
          let mt2 := tmd.1
          let modtext := tmd.2.1
          let dc2 := tmd.2.2
          let s2 := { s1 with modtype := mt2 }
          if stripWs origtext = stripWs modtext ∧ s2.skipcc = true then
            if s2.addcc = true then
              .contStep { s2 with difflist := pop_idx s2.difflist (s2.skip + fidx) }
                (warnEffs ++ [GitEffect.add filename])
            else
              .contStep { s2 with skip := s2.skip + 1 } warnEffs
          else
            let mods := modifications difftext
            let commitmsg :=
              if diffhead then
                "[GT Checked] Staged Files: " ++ toString s2.difflen
              else
                "[GT Checked]  " ++ item.path ++ ": " ++
                  String.intercalate ", " (mods.map (fun p => p.1 ++ " -> " ++ p.2))
            let s3 := { s2 with modtext := modtext, fpath := item.path, fileidx := fidx - nc }
            .shownStep
              { shown := some item.path, filesLeft := s3.difflen - (s3.skip : Int),
                skipped := s3.skip, diffcolored := dc2, commitmsg := commitmsg,
                origtext := origtext, modtext := modtext } s3 warnEffs

/-- Result of running the gtcheck loop to completion or early return. -/
inductive LoopRes where
  | shownRes (p : Page) (s : Session) (effs : List GitEffect)
  | exhaust (s : Session) (effs : List GitEffect)
  | errorRes (effs : List GitEffect)
  deriving DecidableEq, Repr

/-- The for loop of gtcheck over the snapshot difflist[skip:], threading the
session, the enumerate index, nextcounter and the effect log. -/
def gtcheckLoop (repo : Repo) (diffhead : Bool) :
    List (Option String) → Nat → Nat → Session → List GitEffect → LoopRes
  | [], _, _, s, effs => .exhaust s effs
  | f :: rest, fidx, nc, s, effs =>
    match gtcheckFile repo diffhead f fidx nc s with
    | .errStep => .errorRes effs
    | .contStep s' newEffs => gtcheckLoop repo diffhead rest (fidx + 1) (nc + 1) s' (effs ++ newEffs)
    | .shownStep p s' newEffs => .shownRes p s' (effs ++ newEffs)

/-- Paths of currently modified ground-truth files (line 154). -/
def gtPaths (repo : Repo) : List String :=
  (repo.files.filter (fun f => containsSub ".gt.txt".toList f.path.toList)).map (fun f => f.path)

/-- The queue rebuild of gtcheck (lines 153-159): when the queue is empty or
the skip cursor is past its end, re-enumerate the changed files; if still too
short, replace the queue by skip placeholder entries, else record the full
count in difflen and truncate to a 100-entry lookahead window. -/
def rebuildQueue (repo : Repo) (s : Session) : Session :=
  if s.difflist = [] ∨ s.difflist.length ≤ s.skip then
    let paths := gtPaths repo
    if paths.length ≤ s.skip then { s with difflist := List.replicate s.skip none }
    else
      { s with difflen := (paths.length : Int),
               difflist := (paths.map some).take (s.skip + 100) }
  else s

/-- The page rendered when the loop exhausts with staged changes present
(lines 233-238). -/
def exhaustPage (repo : Repo) (s : Session) : Page :=
  { shown := none, filesLeft := 0, skipped := s.skip, diffcolored := "",
    commitmsg := "[GT Checked] Staged Files: " ++ repo.diffhead,
    origtext := "",
    modtext := "Du hast " ++ toString s.skip ++ " Dateien uebersprungen!." }

/-- app.py gtcheck (lines 137-242) with explicit recursion fuel for the
self-call at line 242. -/
def gtcheckGo : Nat → Repo → Session → List GitEffect → Outcome
  | 0, _, _, effs => .fuelOut effs
  | fuel + 1, repo, s, effs =>
    let diffhead := repo.diffhead ≠ ""
    let s1 := rebuildQueue repo s
    match gtcheckLoop repo diffhead (s1.difflist.drop s1.skip) 0 0 s1 effs with
    | .shownRes p s' e => .render p s' e
    | .errorRes e => .errorOut e
    | .exhaust s' e =>
      if diffhead then .render (exhaustPage repo s') { s' with difflen := (s'.skip : Int) } e
      else if s'.difflist = [] then .nofile s' e
      else gtcheckGo fuel repo { s' with skip := 0 } e

/-- app.py gtcheckedit (lines 256-315): apply one reviewer decision to the
session, recording git and filesystem operations, then re-enter gtcheck. -/
def gtcheckeditGo (fuel : Nat) (repo : Repo) (s : Session) (form : Form) : Outcome :=
  if s.difflen - (s.skip : Int) = 0 then
    let effs := if form.selection = "commit" then [GitEffect.commit form.commitmsg] else []
    gtcheckGo fuel repo { s with difflist := [] } effs
  else
    let effs0 := [GitEffect.setName (form.name.getD "GTChecker"),
                  GitEffect.setEmail (form.email.getD "")]
    let modtextF := (replace2 '\r' '\n' ['\n'] form.modtext.toList).asString
    let s1 := { s with vkeylang := form.vkeylang }
    let undoE := if form.undo then
        [GitEffect.resetPath s1.undoFpath, GitEffect.writeFile s1.undoFpath s1.undoValue]
      else []
    let s2 := if form.undo then { s1 with difflen := s1.difflen + 1 } else s1
    let s3 := { s2 with undoFpath := s2.fpath, undoValue := s2.modtext }
    let effs1 := effs0 ++ undoE
    let changed := (replace2 '\r' '\n' ['\n'] s3.modtext.toList).asString ≠ modtextF ∨
                   s3.modtype = "merge"
    if form.selection = "commit" then
      let writeE := if changed then [GitEffect.writeFile s3.fpath modtextF] else []
      let inner :=
        if s3.difflen - (s3.skip : Int) ≠ 0 then
          ({ s3 with bearbeitet := s3.gesamt - s3.difflen },
           writeE ++ [GitEffect.add s3.fpath,
                      GitEffect.reserveWrite s3.gesamt (s3.gesamt - s3.difflen)])
        else (s3, ([] : List GitEffect))
      let s4 := inner.1
      let s5 := { s4 with difflist := [], difflen := s4.difflen - 1 }
      let s6 := { s5 with difflist := pop_idx s5.difflist (s5.skip + s5.fileidx) }
      gtcheckGo fuel repo s6 (effs1 ++ inner.2 ++ [GitEffect.commit form.commitmsg])
    else if form.selection = "stash" then
      let stashE := if s3.modtype = "new" then [GitEffect.rm s3.fpath]
                    else [GitEffect.checkout s3.fpath]
      let s4 := { s3 with gesamt := s3.gesamt - 1 }
      let s5 := { s4 with difflist := pop_idx s4.difflist (s4.skip + s4.fileidx) }
      gtcheckGo fuel repo s5
        (effs1 ++ stashE ++ [GitEffect.reserveWrite s4.gesamt s4.bearbeitet])
    else if form.selection = "add" then
      let writeE := if changed then [GitEffect.writeFile s3.fpath modtextF] else []
      let s4 := { s3 with difflen := s3.difflen - 1 }
      let s5 := { s4 with difflist := pop_idx s4.difflist (s4.skip + s4.fileidx) }
      gtcheckGo fuel repo s5 (effs1 ++ writeE ++ [GitEffect.add s3.fpath])
    else
      gtcheckGo fuel repo { s3 with skip := s3.skip + 1 } effs1

/-- Run a sequence of gtcheckedit transitions, each against its own repo
snapshot and form, threading the session while requests complete normally. -/
def runSteps (fuel : Nat) : List (Repo × Form) → Session → Option Session
  | [], s => some s
  | (r, f) :: rest, s =>
    match gtcheckeditGo fuel r s f with
    | .render _ s' _ => runSteps fuel rest s'
    | .nofile s' _ => runSteps fuel rest s'
    | _ => none

/-- Every match produced by the scanner captures exactly one of the two
groups: a deletion inner text or an insertion inner text. -/
def goodMatch (m : DiffMatch) : Prop :=
  (∃ d, m.delTxt = some d ∧ m.insTxt = none) ∨ (∃ i, m.delTxt = none ∧ m.insTxt = some i)

/-- Opening wrapper count: a < character not followed by a slash. -/
def opCount : List Char → Nat
  | [] => 0
  | [c] => if c = '<' then 1 else 0
  | c :: d :: rest => (if c = '<' ∧ d ≠ '/' then 1 else 0) + opCount (d :: rest)

/-- Closing wrapper count: a < character followed by a slash. -/
def clCount : List Char → Nat
  | [] => 0
  | [_] => 0
  | c :: d :: rest => (if c = '<' ∧ d = '/' then 1 else 0) + clCount (d :: rest)

/-- Marker inner texts that interact with none of the four replacement
passes: no two-character marker occurs inside, and no wrapper-counting
character occurs. -/
def cleanInner (l : List Char) : Prop :=
  hasPair '{' '+' l = false ∧ hasPair '+' '}' l = false ∧
  hasPair '[' '-' l = false ∧ hasPair '-' ']' l = false ∧ '<' ∉ l

instance (l : List Char) : Decidable (cleanInner l) := by
  unfold cleanInner
  infer_instance

/-- Diff texts whose markers are properly paired and that contain no literal
wrapper character: plain characters never form a marker with the following
text, and each marker is a complete opener inner closer block. -/
inductive WFDiff : List Char → Prop
  | nil : WFDiff []
  | plain (c : Char) (s : List Char) :
      c ≠ '<' →
      ¬(c = '{' ∧ s.head? = some '+') → ¬(c = '+' ∧ s.head? = some '}') →
      ¬(c = '[' ∧ s.head? = some '-') → ¬(c = '-' ∧ s.head? = some ']') →
      WFDiff s → WFDiff (c :: s)
  | ins (i s : List Char) : cleanInner i → i.getLast? ≠ some '{' →
      WFDiff s → WFDiff ('{' :: '+' :: (i ++ '+' :: '}' :: s))
  | del (d s : List Char) : cleanInner d → d.getLast? ≠ some '[' →
      WFDiff s → WFDiff ('[' :: '-' :: (d ++ '-' :: ']' :: s))

/-! ## Concrete fixtures used by counterexamples and witnesses -/

def fileA : FileInfo where
  path := "a.gt.txt"
  aBlob := some "foo"
  hasBBlob := true
  bPath := some "a.gt.txt"
  worktext := "bar"
  newFile := false
  deletedFile := false
  diffRaw := Except.ok "@@h\n[-foo-]\x7b+bar+\x7d"
  fallback := Except.ok ""
  mergeDiff := ""

def fileB : FileInfo :=
  { fileA with path := "b.gt.txt", aBlob := some "x", worktext := "y",
               diffRaw := Except.ok "@@h\n[-x-]\x7b+y+\x7d" }

def fileC : FileInfo :=
  { fileA with path := "c.gt.txt", aBlob := some "p", worktext := "q",
               diffRaw := Except.ok "@@h\n[-p-]\x7b+q+\x7d" }

def repo0 : Repo := { files := [fileA, fileB, fileC], diffhead := "" }

def sInit : Session where
  difflist := []
  skip := 0
  difflen := 0
  modtype := ""
  modtext := ""
  fpath := ""
  fileidx := 0
  undoFpath := ""
  undoValue := ""
  vkeylang := ""
  gesamt := 10
  bearbeitet := 0
  skipcc := false
  addcc := false

/-- The session as rendered by gtcheck while presenting the first of three
modified files, with an undo slot recorded from an earlier decision. -/
def sA : Session where
  difflist := [some "a.gt.txt", some "b.gt.txt", some "c.gt.txt"]
  skip := 0
  difflen := 3
  modtype := "mod"
  modtext := "bar"
  fpath := "a.gt.txt"
  fileidx := 0
  undoFpath := "z.gt.txt"
  undoValue := "old"
  vkeylang := ""
  gesamt := 10
  bearbeitet := 0
  skipcc := false
  addcc := false

def formSkip : Form where
  selection := "skip"
  commitmsg := "m"
  modtext := "bar"
  vkeylang := ""
  name := none
  email := none
  undo := false

def formCommit : Form := { formSkip with selection := "commit", modtext := "zzz" }

def formUndoSkip : Form := { formSkip with undo := true }

def LoopRes.effectsOf : LoopRes → List GitEffect
  | .shownRes _ _ e => e
  | .exhaust _ e => e
  | .errorRes e => e

def cleanFile : FileInfo where
  path := "c1.gt.txt"
  aBlob := some "same"
  hasBBlob := true
  bPath := some "c1.gt.txt"
  worktext := "same"
  newFile := false
  deletedFile := false
  diffRaw := Except.ok "@@h\n"
  fallback := Except.ok ""
  mergeDiff := ""

def repoClean : Repo := { files := [cleanFile], diffhead := "" }

def sNew : Session := { sA with modtype := "new", skipcc := true, addcc := false }

def badFile : FileInfo where
  path := "bad.gt.txt"
  aBlob := some "foo"
  hasBBlob := true
  bPath := some "bad.gt.txt"
  worktext := "bar"
  newFile := false
  deletedFile := false
  diffRaw := Except.error "utf8"
  fallback := Except.error "cmp"
  mergeDiff := ""

def repoBad : Repo := { files := [badFile], diffhead := "" }

def sCc : Session := { sA with skipcc := true, addcc := false }

/-! ## Structure of one loop step, shared by the invariant and the
modification-type claims -/

/-- What one gtcheck loop iteration can do to the session: a continue step
keeps difflen, either pops at the cursor position or advances the skip
cursor, and only rewrites the modification type to one of its three
assigned values; a shown step keeps the queue and counters and stores the
corrected enumerate index; an error step ends the request. -/
def FileStepOK (s : Session) (fidx nc : Nat) : FileStep → Prop
  | .contStep s' _ => s'.difflen = s.difflen ∧
      (s'.modtype = s.modtype ∨ s'.modtype = "mod" ∨ s'.modtype = "new" ∨ s'.modtype = "del") ∧
      ((s'.skip = s.skip ∧ s'.difflist = pop_idx s.difflist (s.skip + fidx)) ∨
       (s'.skip = s.skip + 1 ∧ s'.difflist = s.difflist))
  | .shownStep _ s' _ => s'.skip = s.skip ∧ s'.difflist = s.difflist ∧
      s'.difflen = s.difflen ∧ s'.fileidx = fidx - nc ∧
      (s'.modtype = "mod" ∨ s'.modtype = "new" ∨ s'.modtype = "del")
  | .errStep => True

/-- The session invariant: the skip cursor is within the queue, the
remaining count difflen minus skip is not negative, and the session is in
one of three shapes: an exhausted pass (difflen set to skip), a cleared
queue awaiting rebuild, or a presented file whose recorded index is inside
the queue with difflen at least the queue length. -/
def SessionInv (s : Session) : Prop :=
  s.skip ≤ s.difflist.length ∧ (s.skip : Int) ≤ s.difflen ∧
  (s.difflen = (s.skip : Int) ∨ s.difflist = [] ∨
    ((s.difflist.length : Int) ≤ s.difflen ∧ s.skip + s.fileidx < s.difflist.length))

instance (s : Session) : Decidable (SessionInv s) := by
  unfold SessionInv
  infer_instance

/-! ## Claim C10: pop_idx is total and removes exactly the indexed element -/

/-- Claim C10: pop_idx never raises (it is a total function); when the index
is strictly below the stored list length the element at exactly that index
is removed (the result is the part before it followed by the part after
it, one element shorter); otherwise the list is returned completely
unchanged. -/
theorem pop_idx_spec {α : Type} (l : List α) (i : Nat) :
    (i < l.length →
      pop_idx l i = l.take i ++ l.drop (i + 1) ∧ (pop_idx l i).length + 1 = l.length) ∧
    (l.length ≤ i → pop_idx l i = l) := by
  constructor
  · intro h
    unfold pop_idx
    rw [if_pos h]
    exact ⟨List.eraseIdx_eq_take_drop_succ l i, List.length_eraseIdx_add_one h⟩
  · intro h
    unfold pop_idx
    rw [if_neg (by omega)]

/-- Witness for C10 at a concrete list and indices in and out of range. -/
theorem pop_idx_spec_witness :
    (pop_idx ["a", "b", "c"] 1 = ["a", "c"] ∧ (pop_idx ["a", "b", "c"] 1).length + 1 = 3) ∧
    pop_idx ["a", "b", "c"] 7 = ["a", "b", "c"] := by
  refine ⟨⟨?_, ?_⟩, ?_⟩
  · exact ((pop_idx_spec ["a", "b", "c"] 1).1 (by decide)).1
  · exact ((pop_idx_spec ["a", "b", "c"] 1).1 (by decide)).2
  · exact (pop_idx_spec ["a", "b", "c"] 7).2 (by decide)

/-! ## The regex scanner: structural lemmas shared by claims C3 and C4 -/

/-- Non-greedy inner scan applied to an inner text followed by its closing
pair: when the inner text is newline free, does not contain the closing pair
and the two closing characters differ, the scan returns exactly the inner
text and the remainder after the closing pair. -/
theorem scanInner_spec (c1 c2 : Char) (h12 : c1 ≠ c2) :
    ∀ (d rest : List Char), '\n' ∉ d → hasPair c1 c2 d = false →
      scanInner c1 c2 (d ++ c1 :: c2 :: rest) = some (d, rest) := by
  intro d
  induction d with
  | nil => intro rest _ _; simp [scanInner]
  | cons c d' ih =>
    intro rest hnl hhp
    have hc : c ≠ '\n' := by
      intro he; exact hnl (by simp [he])
    cases d' with
    | nil =>
      have : ¬(c = c1 ∧ c1 = c2) := by
        rintro ⟨-, h⟩; exact h12 h
      simp [scanInner, this, hc, Ne.symm hc]
    | cons e d'' =>
      have hne : ¬(c = c1 ∧ e = c2) := by
        rintro ⟨h1, h2⟩
        simp [hasPair, h1, h2] at hhp
      have hrec := ih rest (by intro hm; exact hnl (by simp at hm ⊢; right; exact hm))
        (by simp [hasPair] at hhp; exact hhp.2)
      simp only [List.cons_append] at hrec ⊢
      rw [scanInner]
      simp [hne, hc, hrec]

/-- Fuel exhaustion and the empty list both yield no matches. -/
theorem findMatchesF_nil (fuel pos : Nat) : findMatchesF fuel pos [] = [] := by
  cases fuel <;> simp [findMatchesF]

/-- One deletion marker at the head of the text yields the deletion match
followed by the matches of the remainder. -/
theorem findMatchesF_del (fuel pos : Nat) (d rest : List Char)
    (hnl : '\n' ∉ d) (hhp : hasPair '-' ']' d = false) :
    findMatchesF (fuel + 1) pos ('[' :: '-' :: (d ++ '-' :: ']' :: rest)) =
      ⟨pos, pos + d.length + 4, some d, none⟩ ::
        findMatchesF fuel (pos + d.length + 4) rest := by
  have hs := scanInner_spec '-' ']' (by decide) d rest hnl hhp
  simp [findMatchesF, hs]

/-- One insertion marker at the head of the text yields the insertion match
followed by the matches of the remainder. -/
theorem findMatchesF_ins (fuel pos : Nat) (i rest : List Char)
    (hnl : '\n' ∉ i) (hhp : hasPair '+' '}' i = false) :
    findMatchesF (fuel + 1) pos ('{' :: '+' :: (i ++ '+' :: '}' :: rest)) =
      ⟨pos, pos + i.length + 4, none, some i⟩ ::
        findMatchesF fuel (pos + i.length + 4) rest := by
  have hs := scanInner_spec '+' '}' (by decide) i rest hnl hhp
  simp [findMatchesF, hs]

theorem findMatchesF_good (fuel : Nat) :
    ∀ pos l m, m ∈ findMatchesF fuel pos l → goodMatch m := by
  induction fuel with
  | zero => intro pos l m h; simp [findMatchesF] at h
  | succ f ih =>
    intro pos l m h
    cases l with
    | nil => simp [findMatchesF] at h
    | cons c rest =>
      rw [findMatchesF] at h
      by_cases h1 : c = '[' ∧ rest.head? = some '-'
      · rw [if_pos h1] at h
        cases hs : scanInner '-' ']' rest.tail with
        | none => rw [hs] at h; exact ih _ _ _ h
        | some p =>
          rw [hs] at h
          rcases List.mem_cons.mp h with h | h
          · subst h; exact Or.inl ⟨p.1, rfl, rfl⟩
          · exact ih _ _ _ h
      · rw [if_neg h1] at h
        by_cases h2 : c = '{' ∧ rest.head? = some '+'
        · rw [if_pos h2] at h
          cases hs : scanInner '+' '}' rest.tail with
          | none => rw [hs] at h; exact ih _ _ _ h
          | some p =>
            rw [hs] at h
            rcases List.mem_cons.mp h with h | h
            · subst h; exact Or.inr ⟨p.1, rfl, rfl⟩
            · exact ih _ _ _ h
        · rw [if_neg h2] at h; exact ih _ _ _ h

/-- Invariant of the modifications loop: if every pending match has a
non-empty captured inner text and every accumulated unit already has a
non-empty side, every produced unit has a non-empty side. -/
theorem modsGo_nonempty :
    ∀ (ms : List DiffMatch) (acc : List (List Char × List Char)) (lp : Nat),
      (∀ m ∈ ms, goodMatch m ∧ m.delTxt ≠ some [] ∧ m.insTxt ≠ some []) →
      (∀ u ∈ acc, u.1 ≠ [] ∨ u.2 ≠ []) →
      ∀ u ∈ modsGo ms acc lp, u.1 ≠ [] ∨ u.2 ≠ [] := by
  intro ms
  induction ms with
  | nil =>
    intro acc lp _ hacc u hu
    rw [modsGo] at hu
    exact hacc u (List.mem_reverse.mp hu)
  | cons m ms ih =>
    intro acc lp hms hacc u hu
    obtain ⟨hgood, hdel, hins⟩ := hms m (by simp)
    have hms' : ∀ m' ∈ ms, goodMatch m' ∧ m'.delTxt ≠ some [] ∧ m'.insTxt ≠ some [] := by
      intro m' hm'; exact hms m' (by simp [hm'])
    have hunit : m.delTxt.getD [] ≠ [] ∨ m.insTxt.getD [] ≠ [] := by
      rcases hgood with ⟨d, hd, hi⟩ | ⟨i, hd, hi⟩
      · left; rw [hd]; simp only [Option.getD_some]
        intro he; exact hdel (by rw [hd, he])
      · right; rw [hi]; simp only [Option.getD_some]
        intro he; exact hins (by rw [hi, he])
    cases acc with
    | nil =>
      rw [modsGo] at hu
      exact ih _ _ hms' (by intro v hv; simp at hv; rw [hv]; exact hunit) u hu
    | cons p accTl =>
      obtain ⟨o, r⟩ := p
      simp only [modsGo] at hu
      by_cases hcond : m.insTxt.getD [] ≠ [] ∧ lp = m.mstart ∧ r = []
      · rw [if_pos hcond] at hu
        refine ih _ _ hms' ?_ u hu
        intro v hv
        rcases List.mem_cons.mp hv with hv | hv
        · rw [hv]; right; exact hcond.1
        · exact hacc v (by simp [hv])
      · rw [if_neg hcond] at hu
        refine ih _ _ hms' ?_ u hu
        intro v hv
        rcases List.mem_cons.mp hv with hv | hv
        · rw [hv]; exact hunit
        · exact hacc v hv

theorem asString_eq_empty {l : List Char} (h : l.asString = "") : l = [] := by
  have := congrArg String.data h
  simpa [List.asString] using this

/-! ## Claim C4: every unit has a non-empty side -/

/-- Claim C4 counterexample: on the diff text with an empty-inner deletion
marker the parser returns a unit whose sides are both empty, so the claimed
invariant fails for this diff text. -/
theorem unit_both_sides_empty :
    modifications "[--]" = [("", "")] ∧
    ¬ (∀ u ∈ modifications "[--]", u.1 ≠ "" ∨ u.2 ≠ "") := by
  constructor
  · decide
  · decide

/-- Claim C4 (amended): for every diff text all of whose markers capture a
non-empty inner text, every ModificationUnit returned by the parser has at
least one of its two sides non-empty. -/
theorem units_nonempty_of_nonempty_inners (s : String)
    (h : ∀ m ∈ findMatches s.toList, m.delTxt ≠ some [] ∧ m.insTxt ≠ some []) :
    ∀ u ∈ modifications s, u.1 ≠ "" ∨ u.2 ≠ "" := by
  intro u hu
  rw [modifications] at hu
  obtain ⟨v, hv, huv⟩ := List.mem_map.mp hu
  have hne := modsGo_nonempty (findMatches s.toList) [] 1
    (fun m hm => ⟨findMatchesF_good _ _ _ _ hm, (h m hm).1, (h m hm).2⟩)
    (by intro x hx; simp at hx) v hv
  subst huv
  rcases hne with hne | hne
  · exact Or.inl (fun he => hne (asString_eq_empty he))
  · exact Or.inr (fun he => hne (asString_eq_empty he))

/-- Witness for C4 on a concrete diff text with non-empty marker inners,
applied at the concrete unit the parser returns for it. -/
theorem units_nonempty_witness :
    ("foo", "bar") ∈ modifications "[-foo-]\x7b+bar+\x7d" ∧
    (("foo" : String) ≠ "" ∨ ("bar" : String) ≠ "") :=
  ⟨by decide,
   units_nonempty_of_nonempty_inners "[-foo-]\x7b+bar+\x7d" (by decide)
     ("foo", "bar") (by decide)⟩

/-! ## Claim C3: the delete-insert merge rule -/

/-- Claim C3 counterexample: a deletion marker immediately followed by an
insertion marker whose inserted text is empty yields two units, not one:
the merge guard (add not empty) rejects the fill, so a second unit is
appended. -/
theorem merge_rule_empty_insertion :
    modifications "[-a-]\x7b++\x7d" = [("a", ""), ("", "")] ∧
    (modifications "[-a-]\x7b++\x7d").length ≠ 1 := by
  constructor
  · decide
  · decide

/-- Claim C3 (amended): a diff text consisting of a deletion marker
immediately followed, with no intervening text, by an insertion marker with
non-empty inserted text yields exactly one ModificationUnit
[deletedText, insertedText]: the adjacent insertion fills the replacement
side of the pending unit instead of appending a second unit. -/
theorem merge_rule_one_unit (d i : List Char)
    (hd1 : '\n' ∉ d) (hd2 : hasPair '-' ']' d = false)
    (hi1 : '\n' ∉ i) (hi2 : hasPair '+' '}' i = false) (hne : i ≠ []) :
    modifications
      (('[' :: '-' :: (d ++ '-' :: ']' :: '{' :: '+' :: (i ++ ['+', '}']))).asString) =
      [(d.asString, i.asString)] := by
  rw [modifications]
  have htl : (('[' :: '-' :: (d ++ '-' :: ']' :: '{' :: '+' :: (i ++ ['+', '}']))).asString).toList
      = '[' :: '-' :: (d ++ '-' :: ']' :: '{' :: '+' :: (i ++ ['+', '}'])) := rfl
  rw [htl, findMatches]
  have hlen : ('[' :: '-' :: (d ++ '-' :: ']' :: '{' :: '+' :: (i ++ ['+', '}']))).length
      = (d.length + i.length + 6) + 1 + 1 := by simp; omega
  rw [hlen]
  rw [findMatchesF_del (d.length + i.length + 6 + 1) 0 d _ hd1 hd2]
  rw [findMatchesF_ins (d.length + i.length + 6) (0 + d.length + 4) i [] hi1 hi2]
  rw [findMatchesF_nil]
  simp [modsGo, hne]

/-- Witness for C3 on the concrete pair of a deletion and an adjacent
non-empty insertion. -/
theorem merge_rule_one_unit_witness :
    modifications "[-a-]\x7b+b+\x7d" = [("a", "b")] := by
  have h := merge_rule_one_unit ['a'] ['b'] (by decide) (by decide) (by decide)
    (by decide) (by decide)
  exact h

/-! ## Claim C8: the renderer and wrapper balance

Lemmas about replace2, the sequential composition colorList, and counting of
opening and closing wrappers in the output.  An opening wrapper is a span tag
and a closing wrapper the closing span tag; on inputs that contain no
literal < character, the wrappers in the output are counted by looking at
each < and whether a / follows. -/

theorem replace2_cons (p1 p2 : Char) (repl : List Char) (c : Char) (l : List Char)
    (h : ¬(c = p1 ∧ l.head? = some p2)) :
    replace2 p1 p2 repl (c :: l) = c :: replace2 p1 p2 repl l := by
  cases l with
  | nil => rfl
  | cons d rest =>
    rw [replace2, if_neg]
    intro hc
    exact h ⟨hc.1, by simp [hc.2]⟩

theorem replace2_match (p1 p2 : Char) (repl : List Char) (l : List Char) :
    replace2 p1 p2 repl (p1 :: p2 :: l) = repl ++ replace2 p1 p2 repl l := by
  rw [replace2, if_pos ⟨rfl, rfl⟩]

theorem replace2_append (p1 p2 : Char) (repl : List Char) :
    ∀ (a b : List Char), hasPair p1 p2 a = false →
      ¬(a.getLast? = some p1 ∧ b.head? = some p2) →
      replace2 p1 p2 repl (a ++ b) = a ++ replace2 p1 p2 repl b := by
  intro a
  induction a with
  | nil => intro b _ _; simp
  | cons c a' ih =>
    intro b hA hB
    cases a' with
    | nil =>
      have hb : ¬(c = p1 ∧ b.head? = some p2) := by
        intro hc
        exact hB ⟨by simp [hc.1], hc.2⟩
      simpa using replace2_cons p1 p2 repl c b hb
    | cons e a'' =>
      have h1 : ¬(c = p1 ∧ e = p2) := by
        intro hc
        simp [hasPair, hc.1, hc.2] at hA
      have hA' : hasPair p1 p2 (e :: a'') = false := by
        rw [hasPair] at hA
        exact (Bool.or_eq_false_iff.mp hA).2
      have hB' : ¬((e :: a'').getLast? = some p1 ∧ b.head? = some p2) := by
        rw [← List.getLast?_cons_cons]
        exact hB
      have step : replace2 p1 p2 repl (c :: ((e :: a'') ++ b)) =
          c :: replace2 p1 p2 repl ((e :: a'') ++ b) := by
        refine replace2_cons p1 p2 repl c _ ?_
        intro hc
        simp at hc
        exact h1 ⟨hc.1, hc.2⟩
      calc replace2 p1 p2 repl ((c :: e :: a'') ++ b)
          = c :: replace2 p1 p2 repl ((e :: a'') ++ b) := step
        _ = c :: ((e :: a'') ++ replace2 p1 p2 repl b) := by rw [ih b hA' hB']
        _ = (c :: e :: a'') ++ replace2 p1 p2 repl b := rfl

/-- The head of a replaced list is the original head or the head of the
replacement text. -/
theorem replace2_head (p1 p2 : Char) (repl : List Char) (r : Char)
    (hr : repl.head? = some r) :
    ∀ (l : List Char), (replace2 p1 p2 repl l).head? = l.head? ∨
      (replace2 p1 p2 repl l).head? = some r := by
  intro l
  cases l with
  | nil => left; rfl
  | cons c l' =>
    cases l' with
    | nil => left; rfl
    | cons d rest =>
      rw [replace2]
      by_cases hc : c = p1 ∧ d = p2
      · rw [if_pos hc]
        right
        cases repl with
        | nil => simp at hr
        | cons x xs => simp at hr; simp [hr]
      · rw [if_neg hc]; left; rfl

theorem hasPair_cons (p1 p2 c : Char) (l : List Char) :
    hasPair p1 p2 (c :: l) =
      ((decide (c = p1) && decide (l.head? = some p2)) || hasPair p1 p2 l) := by
  cases l with
  | nil => simp [hasPair]
  | cons d rest => simp [hasPair]

theorem hasPair_append (p1 p2 : Char) :
    ∀ (a b : List Char), hasPair p1 p2 (a ++ b) =
      (hasPair p1 p2 a ||
        (decide (a.getLast? = some p1) && decide (b.head? = some p2)) ||
        hasPair p1 p2 b) := by
  intro a
  induction a with
  | nil => intro b; simp [hasPair]
  | cons c a' ih =>
    intro b
    cases a' with
    | nil =>
      rw [List.cons_append, List.nil_append, hasPair_cons, hasPair_cons]
      simp [hasPair, Bool.or_assoc]
    | cons e a'' =>
      have hrec : hasPair p1 p2 (e :: (a'' ++ b)) =
          (hasPair p1 p2 (e :: a'') ||
            (decide ((e :: a'').getLast? = some p1) && decide (b.head? = some p2)) ||
            hasPair p1 p2 b) := by
        rw [← List.cons_append]; exact ih b
      show hasPair p1 p2 (c :: e :: (a'' ++ b)) = _
      rw [hasPair_cons, hrec, List.getLast?_cons_cons, hasPair_cons p1 p2 c (e :: a'')]
      have hh : (e :: (a'' ++ b)).head? = some e := rfl
      have hh2 : (e :: a'').head? = some e := rfl
      rw [hh, hh2]
      simp [Bool.or_assoc]

theorem opCount_cons_ne (c : Char) (l : List Char) (h : c ≠ '<') :
    opCount (c :: l) = opCount l := by
  cases l with
  | nil => simp [opCount, h]
  | cons d rest => simp [opCount, h]

theorem clCount_cons_ne (c : Char) (l : List Char) (h : c ≠ '<') :
    clCount (c :: l) = clCount l := by
  cases l with
  | nil => simp [clCount]
  | cons d rest => simp [clCount, h]

theorem opCount_append :
    ∀ (a b : List Char), a.getLast? ≠ some '<' →
      opCount (a ++ b) = opCount a + opCount b := by
  intro a
  induction a with
  | nil => intro b _; simp [opCount]
  | cons c a' ih =>
    intro b h
    cases a' with
    | nil =>
      have hc : c ≠ '<' := by
        intro he; exact h (by simp [he])
      rw [List.cons_append, List.nil_append, opCount_cons_ne c b hc]
      simp [opCount, hc]
    | cons e a'' =>
      have h' : (e :: a'').getLast? ≠ some '<' := by
        rw [← List.getLast?_cons_cons]; exact h
      have hrec : opCount (e :: (a'' ++ b)) = opCount (e :: a'') + opCount b := by
        rw [← List.cons_append]; exact ih b h'
      show opCount (c :: e :: (a'' ++ b)) = opCount (c :: e :: a'') + opCount b
      rw [opCount, hrec, opCount]
      omega

theorem clCount_append :
    ∀ (a b : List Char), a.getLast? ≠ some '<' →
      clCount (a ++ b) = clCount a + clCount b := by
  intro a
  induction a with
  | nil => intro b _; simp [clCount]
  | cons c a' ih =>
    intro b h
    cases a' with
    | nil =>
      have hc : c ≠ '<' := by
        intro he; exact h (by simp [he])
      rw [List.cons_append, List.nil_append, clCount_cons_ne c b hc]
      simp [clCount]
    | cons e a'' =>
      have h' : (e :: a'').getLast? ≠ some '<' := by
        rw [← List.getLast?_cons_cons]; exact h
      have hrec : clCount (e :: (a'' ++ b)) = clCount (e :: a'') + clCount b := by
        rw [← List.cons_append]; exact ih b h'
      show clCount (c :: e :: (a'' ++ b)) = clCount (c :: e :: a'') + clCount b
      rw [clCount, hrec, clCount]
      omega

theorem opCount_no_lt : ∀ (l : List Char), '<' ∉ l → opCount l = 0 := by
  intro l
  induction l with
  | nil => intro _; rfl
  | cons c l' ih =>
    intro h
    have hc : c ≠ '<' := by
      intro he; exact h (by simp [he])
    rw [opCount_cons_ne c l' hc]
    exact ih (by intro hm; exact h (by simp [hm]))

theorem clCount_no_lt : ∀ (l : List Char), '<' ∉ l → clCount l = 0 := by
  intro l
  induction l with
  | nil => intro _; rfl
  | cons c l' ih =>
    intro h
    have hc : c ≠ '<' := by
      intro he; exact h (by simp [he])
    rw [clCount_cons_ne c l' hc]
    exact ih (by intro hm; exact h (by simp [hm]))

theorem getLast?_ne_of_not_mem {l : List Char} {c : Char} (h : c ∉ l) :
    l.getLast? ≠ some c := by
  intro he
  exact h (List.mem_of_mem_getLast? (by simp [he]))

/-- Pushing a marker-free character through all four replacement passes. -/
theorem colorList_cons (c : Char) (s : List Char)
    (h1 : ¬(c = '{' ∧ s.head? = some '+')) (h2 : ¬(c = '+' ∧ s.head? = some '}'))
    (h3 : ¬(c = '[' ∧ s.head? = some '-')) (h4 : ¬(c = '-' ∧ s.head? = some ']')) :
    colorList (c :: s) = c :: colorList s := by
  have hh1 := replace2_head '{' '+' spanGreen '<' (by decide) s
  have h2' : ¬(c = '+' ∧ (replace2 '{' '+' spanGreen s).head? = some '}') := by
    rintro ⟨hc, hh⟩
    rcases hh1 with he | he
    · exact h2 ⟨hc, by rw [← he]; exact hh⟩
    · exact absurd (he.symm.trans hh) (by decide)
  have hh2 := replace2_head '+' '}' spanClose '<' (by decide)
    (replace2 '{' '+' spanGreen s)
  have h3' : ¬(c = '[' ∧
      (replace2 '+' '}' spanClose (replace2 '{' '+' spanGreen s)).head? = some '-') := by
    rintro ⟨hc, hh⟩
    rcases hh2 with he | he
    · rcases hh1 with he' | he'
      · exact h3 ⟨hc, by rw [← he', ← he]; exact hh⟩
      · exact absurd ((he.trans he').symm.trans hh) (by decide)
    · exact absurd (he.symm.trans hh) (by decide)
  have hh3 := replace2_head '[' '-' spanRed '<' (by decide)
    (replace2 '+' '}' spanClose (replace2 '{' '+' spanGreen s))
  have h4' : ¬(c = '-' ∧
      (replace2 '[' '-' spanRed
        (replace2 '+' '}' spanClose (replace2 '{' '+' spanGreen s))).head? = some ']') := by
    rintro ⟨hc, hh⟩
    rcases hh3 with he | he
    · rcases hh2 with he2 | he2
      · rcases hh1 with he1 | he1
        · exact h4 ⟨hc, by rw [← he1, ← he2, ← he]; exact hh⟩
        · exact absurd (((he.trans he2).trans he1).symm.trans hh) (by decide)
      · exact absurd ((he.trans he2).symm.trans hh) (by decide)
    · exact absurd (he.symm.trans hh) (by decide)
  show replace2 '-' ']' spanClose (replace2 '[' '-' spanRed (replace2 '+' '}' spanClose
      (replace2 '{' '+' spanGreen (c :: s)))) = c :: colorList s
  rw [replace2_cons _ _ _ _ _ h1, replace2_cons _ _ _ _ _ h2',
    replace2_cons _ _ _ _ _ h3', replace2_cons _ _ _ _ _ h4']
  rfl

/-- Rendering one whole insertion marker: the green opening wrapper, the
inner text and the closing wrapper, followed by the rendering of the rest. -/
theorem colorList_ins (i s : List Char) (hcl : cleanInner i)
    (hlast : i.getLast? ≠ some '{') :
    colorList ('{' :: '+' :: (i ++ '+' :: '}' :: s)) =
      spanGreen ++ i ++ spanClose ++ colorList s := by
  obtain ⟨hc1, hc2, hc3, hc4, _⟩ := hcl
  have hilast : (i ++ ['+', '}']).getLast? = some '}' := by
    rw [List.getLast?_append_cons]; decide
  have hA1 : hasPair '{' '+' (i ++ ['+', '}']) = false := by
    rw [hasPair_append]
    simp [hc1, hlast, hasPair]
  have e1 : replace2 '{' '+' spanGreen ('{' :: '+' :: (i ++ '+' :: '}' :: s)) =
      spanGreen ++ ((i ++ ['+', '}']) ++ replace2 '{' '+' spanGreen s) := by
    rw [replace2_match]
    congr 1
    have hsh : i ++ '+' :: '}' :: s = (i ++ ['+', '}']) ++ s := by simp
    rw [hsh]
    refine replace2_append _ _ _ _ _ hA1 ?_
    rw [hilast]
    rintro ⟨he, -⟩
    exact absurd he (by decide)
  have hA2 : hasPair '+' '}' (spanGreen ++ i) = false := by
    rw [hasPair_append]
    simp [hc2, show hasPair '+' '}' spanGreen = false from by decide,
      show spanGreen.getLast? = some '>' from by decide]
  have e2 : replace2 '+' '}' spanClose
      ((spanGreen ++ i) ++ ('+' :: '}' :: replace2 '{' '+' spanGreen s)) =
      (spanGreen ++ i) ++ (spanClose ++
        replace2 '+' '}' spanClose (replace2 '{' '+' spanGreen s)) := by
    rw [replace2_append _ _ _ _ _ hA2 (by rintro ⟨-, hh⟩; simp at hh),
      replace2_match]
  have hGiC : ((spanGreen ++ i) ++ spanClose).getLast? = some '>' := by
    rw [List.getLast?_append_of_ne_nil _ (by decide)]
    decide
  have hA3 : hasPair '[' '-' ((spanGreen ++ i) ++ spanClose) = false := by
    rw [hasPair_append, hasPair_append]
    simp [hc3, show hasPair '[' '-' spanGreen = false from by decide,
      show hasPair '[' '-' spanClose = false from by decide,
      show spanGreen.getLast? = some '>' from by decide,
      show spanClose.head? = some '<' from by decide]
  have e3 : replace2 '[' '-' spanRed (((spanGreen ++ i) ++ spanClose) ++
      replace2 '+' '}' spanClose (replace2 '{' '+' spanGreen s)) =
      ((spanGreen ++ i) ++ spanClose) ++ replace2 '[' '-' spanRed
        (replace2 '+' '}' spanClose (replace2 '{' '+' spanGreen s)) := by
    refine replace2_append _ _ _ _ _ hA3 ?_
    rw [hGiC]
    rintro ⟨he, -⟩
    exact absurd he (by decide)
  have hA4 : hasPair '-' ']' ((spanGreen ++ i) ++ spanClose) = false := by
    rw [hasPair_append, hasPair_append]
    simp [hc4, show hasPair '-' ']' spanGreen = false from by decide,
      show hasPair '-' ']' spanClose = false from by decide,
      show spanGreen.getLast? = some '>' from by decide,
      show spanClose.head? = some '<' from by decide]
  have e4 : replace2 '-' ']' spanClose (((spanGreen ++ i) ++ spanClose) ++
      replace2 '[' '-' spanRed (replace2 '+' '}' spanClose
        (replace2 '{' '+' spanGreen s))) =
      ((spanGreen ++ i) ++ spanClose) ++ replace2 '-' ']' spanClose
        (replace2 '[' '-' spanRed (replace2 '+' '}' spanClose
          (replace2 '{' '+' spanGreen s))) := by
    refine replace2_append _ _ _ _ _ hA4 ?_
    rw [hGiC]
    rintro ⟨he, -⟩
    exact absurd he (by decide)
  show replace2 '-' ']' spanClose (replace2 '[' '-' spanRed (replace2 '+' '}' spanClose
      (replace2 '{' '+' spanGreen ('{' :: '+' :: (i ++ '+' :: '}' :: s))))) = _
  rw [e1, show spanGreen ++ ((i ++ ['+', '}']) ++ replace2 '{' '+' spanGreen s) =
      (spanGreen ++ i) ++ ('+' :: '}' :: replace2 '{' '+' spanGreen s) from by simp,
    e2, show (spanGreen ++ i) ++ (spanClose ++
      replace2 '+' '}' spanClose (replace2 '{' '+' spanGreen s)) =
      ((spanGreen ++ i) ++ spanClose) ++
        replace2 '+' '}' spanClose (replace2 '{' '+' spanGreen s) from by simp,
    e3, e4]
  rfl

/-- Rendering one whole deletion marker: the red opening wrapper, the inner
text and the closing wrapper, followed by the rendering of the rest. -/
theorem colorList_del (d s : List Char) (hcl : cleanInner d)
    (hlast : d.getLast? ≠ some '[') :
    colorList ('[' :: '-' :: (d ++ '-' :: ']' :: s)) =
      spanRed ++ d ++ spanClose ++ colorList s := by
  obtain ⟨hc1, hc2, hc3, hc4, _⟩ := hcl
  have hdlast : (d ++ ['-', ']']).getLast? = some ']' := by
    rw [List.getLast?_append_cons]; decide
  have hpre : ∀ (x : List Char), '[' :: '-' :: (d ++ '-' :: ']' :: x) =
      ('[' :: '-' :: (d ++ ['-', ']'])) ++ x := by
    intro x; simp
  have hA1 : hasPair '{' '+' ('[' :: '-' :: (d ++ ['-', ']'])) = false := by
    rw [hasPair_cons, hasPair_cons, hasPair_append]
    simp [hc1, hasPair]
  have hB1 : ('[' :: '-' :: (d ++ ['-', ']'])).getLast? = some ']' := by
    rw [List.getLast?_cons_cons]
    cases d with
    | nil => decide
    | cons x xs => rw [← List.cons_append, List.getLast?_append_cons]; decide
  have e1 : replace2 '{' '+' spanGreen (('[' :: '-' :: (d ++ ['-', ']'])) ++ s) =
      ('[' :: '-' :: (d ++ ['-', ']'])) ++ replace2 '{' '+' spanGreen s := by
    refine replace2_append _ _ _ _ _ hA1 ?_
    rw [hB1]
    rintro ⟨he, -⟩
    exact absurd he (by decide)
  have hA2 : hasPair '+' '}' ('[' :: '-' :: (d ++ ['-', ']'])) = false := by
    rw [hasPair_cons, hasPair_cons, hasPair_append]
    simp [hc2, hasPair]
  have e2 : replace2 '+' '}' spanClose (('[' :: '-' :: (d ++ ['-', ']'])) ++
      replace2 '{' '+' spanGreen s) =
      ('[' :: '-' :: (d ++ ['-', ']'])) ++ replace2 '+' '}' spanClose
        (replace2 '{' '+' spanGreen s) := by
    refine replace2_append _ _ _ _ _ hA2 ?_
    rw [hB1]
    rintro ⟨he, -⟩
    exact absurd he (by decide)
  have hA3 : hasPair '[' '-' (d ++ ['-', ']']) = false := by
    rw [hasPair_append]
    simp [hc3, hlast, hasPair]
  have e3 : replace2 '[' '-' spanRed ('[' :: '-' :: ((d ++ ['-', ']']) ++
      replace2 '+' '}' spanClose (replace2 '{' '+' spanGreen s))) =
      spanRed ++ ((d ++ ['-', ']']) ++ replace2 '[' '-' spanRed
        (replace2 '+' '}' spanClose (replace2 '{' '+' spanGreen s))) := by
    rw [replace2_match]
    congr 1
    refine replace2_append _ _ _ _ _ hA3 ?_
    rw [hdlast]
    rintro ⟨he, -⟩
    exact absurd he (by decide)
  have hA4 : hasPair '-' ']' (spanRed ++ d) = false := by
    rw [hasPair_append]
    simp [hc4, show hasPair '-' ']' spanRed = false from by decide,
      show spanRed.getLast? = some '>' from by decide]
  have e4 : replace2 '-' ']' spanClose ((spanRed ++ d) ++ ('-' :: ']' ::
      replace2 '[' '-' spanRed (replace2 '+' '}' spanClose
        (replace2 '{' '+' spanGreen s)))) =
      (spanRed ++ d) ++ (spanClose ++ replace2 '-' ']' spanClose
        (replace2 '[' '-' spanRed (replace2 '+' '}' spanClose
          (replace2 '{' '+' spanGreen s)))) := by
    rw [replace2_append _ _ _ _ _ hA4 (by rintro ⟨-, hh⟩; simp at hh),
      replace2_match]
  show replace2 '-' ']' spanClose (replace2 '[' '-' spanRed (replace2 '+' '}' spanClose
      (replace2 '{' '+' spanGreen ('[' :: '-' :: (d ++ '-' :: ']' :: s))))) = _
  rw [hpre s, e1, e2]
  rw [show ('[' :: '-' :: (d ++ ['-', ']'])) ++ replace2 '+' '}' spanClose
      (replace2 '{' '+' spanGreen s) = '[' :: '-' :: ((d ++ ['-', ']']) ++
      replace2 '+' '}' spanClose (replace2 '{' '+' spanGreen s)) from by simp]
  rw [e3]
  rw [show spanRed ++ ((d ++ ['-', ']']) ++ replace2 '[' '-' spanRed
      (replace2 '+' '}' spanClose (replace2 '{' '+' spanGreen s))) =
      (spanRed ++ d) ++ ('-' :: ']' :: replace2 '[' '-' spanRed
        (replace2 '+' '}' spanClose (replace2 '{' '+' spanGreen s))) from by simp]
  rw [e4]
  simp [colorList, List.append_assoc]

theorem colorList_balanced : ∀ (l : List Char), WFDiff l →
    opCount (colorList l) = clCount (colorList l) := by
  intro l h
  induction h with
  | nil => rfl
  | plain c s hlt h1 h2 h3 h4 _ ih =>
    rw [colorList_cons c s h1 h2 h3 h4, opCount_cons_ne _ _ hlt, clCount_cons_ne _ _ hlt]
    exact ih
  | ins i s hcl hlast _ ih =>
    rw [colorList_ins i s hcl hlast]
    have hlG : spanGreen.getLast? ≠ some '<' := by decide
    have hlGi : (spanGreen ++ i).getLast? ≠ some '<' := by
      cases hi : i with
      | nil => simpa using hlG
      | cons x xs =>
        rw [List.getLast?_append_cons]
        exact getLast?_ne_of_not_mem (by
          have := hcl.2.2.2.2
          rw [hi] at this
          exact this)
    have hlGiC : ((spanGreen ++ i) ++ spanClose).getLast? ≠ some '<' := by
      rw [List.getLast?_append_of_ne_nil _ (by decide)]
      decide
    have hiop : opCount i = 0 := opCount_no_lt i hcl.2.2.2.2
    have hicl : clCount i = 0 := clCount_no_lt i hcl.2.2.2.2
    rw [opCount_append _ _ hlGiC, opCount_append _ _ hlGi, opCount_append _ _ hlG]
    rw [clCount_append _ _ hlGiC, clCount_append _ _ hlGi, clCount_append _ _ hlG]
    rw [hiop, hicl, ih]
    have hv : opCount spanGreen = 1 ∧ clCount spanGreen = 0 ∧
        opCount spanClose = 0 ∧ clCount spanClose = 1 := by decide
    omega
  | del d s hcl hlast _ ih =>
    rw [colorList_del d s hcl hlast]
    have hlR : spanRed.getLast? ≠ some '<' := by decide
    have hlRd : (spanRed ++ d).getLast? ≠ some '<' := by
      cases hd : d with
      | nil => simpa using hlR
      | cons x xs =>
        rw [List.getLast?_append_cons]
        exact getLast?_ne_of_not_mem (by
          have := hcl.2.2.2.2
          rw [hd] at this
          exact this)
    have hlRdC : ((spanRed ++ d) ++ spanClose).getLast? ≠ some '<' := by
      rw [List.getLast?_append_of_ne_nil _ (by decide)]
      decide
    have hdop : opCount d = 0 := opCount_no_lt d hcl.2.2.2.2
    have hdcl : clCount d = 0 := clCount_no_lt d hcl.2.2.2.2
    rw [opCount_append _ _ hlRdC, opCount_append _ _ hlRd, opCount_append _ _ hlR]
    rw [clCount_append _ _ hlRdC, clCount_append _ _ hlRd, clCount_append _ _ hlR]
    rw [hdop, hdcl, ih]
    have hv : opCount spanRed = 1 ∧ clCount spanRed = 0 ∧
        opCount spanClose = 0 ∧ clCount spanClose = 1 := by decide
    omega

/-- Claim C8 counterexample: on the input consisting of a lone opening
insertion marker the output contains one opening wrapper and no closing
wrapper, so balance does not hold for every input diff text. -/
theorem render_unbalanced_open :
    opCount (color_diffs "\x7b+").toList = 1 ∧
    clCount (color_diffs "\x7b+").toList = 0 := by
  constructor
  · decide
  · decide

/-- Claim C8 (amended): the renderer is the pure function color_diffs, and
for every input diff text whose markers are properly paired (generated by
the WFDiff grammar: plain text that never forms a marker pair with what
follows, and complete insertion and deletion marker blocks) and that
contains no literal wrapper character, the rendered output is balanced:
it has exactly as many opening wrappers as closing wrappers. -/
theorem render_balanced_wf (s : String) (h : WFDiff s.toList) :
    opCount (color_diffs s).toList = clCount (color_diffs s).toList := by
  have := colorList_balanced s.toList h
  exact this

/-- Witness for C8 on a concrete well-formed diff text. -/
theorem render_balanced_wf_witness :
    opCount (color_diffs "[-a-] \x7b+b+\x7d").toList =
      clCount (color_diffs "[-a-] \x7b+b+\x7d").toList := by
  apply render_balanced_wf
  show WFDiff ('[' :: '-' :: (['a'] ++ '-' :: ']' ::
    (' ' :: '{' :: '+' :: (['b'] ++ '+' :: '}' :: []))))
  refine WFDiff.del ['a'] _ (by decide) (by decide) ?_
  refine WFDiff.plain ' ' _ (by decide) (by decide) (by decide) (by decide) (by decide) ?_
  exact WFDiff.ins ['b'] [] (by decide) (by decide) WFDiff.nil

/-! ## Claim C1: when the repository commit call happens -/

/-- Effects already recorded are preserved by the gtcheck loop. -/
theorem gtcheckLoop_effs_mono (repo : Repo) (dh : Bool) :
    ∀ (snap : List (Option String)) (fidx nc : Nat) (s : Session)
      (effs : List GitEffect) (e : GitEffect), e ∈ effs →
      e ∈ (gtcheckLoop repo dh snap fidx nc s effs).effectsOf := by
  intro snap
  induction snap with
  | nil => intro fidx nc s effs e he; exact he
  | cons f rest ih =>
    intro fidx nc s effs e he
    rw [gtcheckLoop]
    cases gtcheckFile repo dh f fidx nc s with
    | errStep => exact he
    | contStep s' newE => exact ih _ _ _ _ e (List.mem_append_left _ he)
    | shownStep p s' newE => exact List.mem_append_left _ he

/-- Effects already recorded are preserved by gtcheck. -/
theorem gtcheckGo_effs_mono :
    ∀ (fuel : Nat) (repo : Repo) (s : Session) (effs : List GitEffect)
      (e : GitEffect), e ∈ effs → e ∈ (gtcheckGo fuel repo s effs).effectsOf := by
  intro fuel
  induction fuel with
  | zero => intro repo s effs e he; exact he
  | succ f ih =>
    intro repo s effs e he
    rw [gtcheckGo]
    have hloop := gtcheckLoop_effs_mono repo (repo.diffhead ≠ "")
      ((rebuildQueue repo s).difflist.drop (rebuildQueue repo s).skip) 0 0
      (rebuildQueue repo s) effs e he
    cases hrun : gtcheckLoop repo (repo.diffhead ≠ "")
        ((rebuildQueue repo s).difflist.drop (rebuildQueue repo s).skip) 0 0
        (rebuildQueue repo s) effs with
    | shownRes p s' e' =>
      rw [hrun] at hloop
      exact hloop
    | errorRes e' =>
      rw [hrun] at hloop
      exact hloop
    | exhaust s' e' =>
      rw [hrun] at hloop
      show e ∈ (if repo.diffhead ≠ "" then
          Outcome.render (exhaustPage repo s') { s' with difflen := (s'.skip : Int) } e'
        else if s'.difflist = [] then Outcome.nofile s' e'
        else gtcheckGo f repo { s' with skip := 0 } e').effectsOf
      by_cases hdh : repo.diffhead ≠ ""
      · rw [if_pos hdh]; exact hloop
      · rw [if_neg hdh]
        by_cases hempty : s'.difflist = []
        · rw [if_pos hempty]; exact hloop
        · rw [if_neg hempty]; exact ih _ _ _ e hloop

/-- Claim C1 (amended): every gtcheckedit request whose decision is commit
performs a repository commit call with the submitted message, no matter how
many changed files remain; the remaining-count only selects between the bare
commit of the early branch and the stage-then-commit of the main branch. -/
theorem commit_always_commits (fuel : Nat) (repo : Repo) (s : Session) (form : Form)
    (h : form.selection = "commit") :
    GitEffect.commit form.commitmsg ∈ (gtcheckeditGo fuel repo s form).effectsOf := by
  rw [gtcheckeditGo]
  by_cases h0 : s.difflen - (s.skip : Int) = 0
  · rw [if_pos h0]
    apply gtcheckGo_effs_mono
    simp [h]
  · rw [if_neg h0]
    simp only [h, if_pos]
    apply gtcheckGo_effs_mono
    simp

/-- Witness for C1: a commit decision on a queue with several remaining
files records the commit call. -/
theorem commit_always_commits_witness :
    GitEffect.commit "m" ∈ (gtcheckeditGo 5 repo0 sA formCommit).effectsOf :=
  commit_always_commits 5 repo0 sA formCommit (by decide)

/-- Claim C1 counterexample: a commit decision taken while the queue still
holds three remaining changed files (so two other files remain after this
one) does perform the repository commit call, contradicting the claim that
no commit call happens before the last file. -/
theorem commit_called_with_files_left :
    sA.difflen - (sA.skip : Int) = 3 ∧
    GitEffect.commit "m" ∈ (gtcheckeditGo 5 repo0 sA formCommit).effectsOf := by
  constructor
  · decide
  · decide

/-! ## Claim C7: a second consecutive undo is not rejected -/

/-- Claim C7: the code rejects no undo request.  Starting from the session
presenting the first file, a first undo request is processed, and then the
immediately following request with the undo flag set again performs the
unstage call and the snapshot write again (with the snapshot slot recorded
by the first request) and increments the remaining count again, instead of
failing closed as the specification requires.  This evaluates the embedded
handler on the two concrete consecutive requests. -/
theorem second_undo_not_rejected :
    (let s1 := ((gtcheckeditGo 10 repo0 sA formUndoSkip).stateOf).getD sInit
     let out2 := gtcheckeditGo 10 repo0 s1 formUndoSkip
     let s2 := (out2.stateOf).getD sInit
     GitEffect.resetPath s1.undoFpath ∈ out2.effectsOf ∧
     GitEffect.writeFile s1.undoFpath s1.undoValue ∈ out2.effectsOf ∧
     s2.difflen = s1.difflen + 1) := by
  decide

/-! ## Claim C5: double decode failure is recovered with an empty diff -/

/-- Claim C5: when the word-level diff of a tracked, non-new, non-deleted
file cannot be decoded and the content-hash fallback comparison also fails,
get_difftext returns the empty diff string together with the two non-fatal
warnings, and the gtcheck loop still presents the file to the reviewer with
an empty colorized diff: the step is a shownStep whose only effects are the
logged warnings, and no error outcome is produced. -/
theorem decode_fallback_failure_recovered
    (repo : Repo) (dh : Bool) (fn : String) (item : FileInfo) (ab e1 e2 : String)
    (fidx nc : Nat) (s : Session)
    (hfind : repo.files.find? (fun f => f.path == fn) = some item)
    (hab : item.aBlob = some ab)
    (hnew : item.newFile = false) (hdel : item.deletedFile = false)
    (hbp : item.bPath ≠ none)
    (hne : lstripSp ab ≠ "")
    (hmerge : containsSub "<<<<<<< HEAD\n".toList (lstripSp ab).toList = false)
    (hdec : item.diffRaw = Except.error e1)
    (hfb : item.fallback = Except.error e2)
    (hclean : ¬(stripWs (lstripSp ab) = stripWs (lstripSp item.worktext) ∧ s.skipcc = true)) :
    get_difftext (lstripSp ab) item =
      ("", ["File:" ++ item.path ++ " Warning the diff text could not be decoded! Error:" ++ e1,
            "File:" ++ item.path ++ " Both files could not be compared! Error:" ++ e2]) ∧
    ∃ p s', gtcheckFile repo dh (some fn) fidx nc s =
        FileStep.shownStep p s'
          [GitEffect.warn ("File:" ++ item.path ++
             " Warning the diff text could not be decoded! Error:" ++ e1),
           GitEffect.warn ("File:" ++ item.path ++
             " Both files could not be compared! Error:" ++ e2)] ∧
      p.diffcolored = "" ∧ p.shown = some item.path := by
  have hgd : get_difftext (lstripSp ab) item =
      ("", ["File:" ++ item.path ++ " Warning the diff text could not be decoded! Error:" ++ e1,
            "File:" ++ item.path ++ " Both files could not be compared! Error:" ++ e2]) := by
    rw [get_difftext, if_neg (fun hc => by rw [hmerge] at hc; exact Bool.false_ne_true hc),
      hdec, hfb]
  refine ⟨hgd, ?_⟩
  have hcd : color_diffs "" = "" := rfl
  simp only [gtcheckFile, hfind, hab, hgd, hcd]
  simp only [hnew, hdel, hne, hbp, hclean]
  simp [hnew, hdel, hne, hbp, hclean]

/-! ## Claim C6: the clean-copy auto-skip frame -/

/-- Claim C6 counterexample: processing a clean-copy file with the
skip-clean-copies toggle on and the auto-stage toggle off while the session
modification type still holds the previous value "new": the step increments
the skip cursor and keeps the queue entry with no git effects, but it also
overwrites the session modification-type field with "mod", so the session
state does not change only in the skip cursor as claimed. -/
theorem clean_copy_modtype_changes :
    gtcheckFile repoClean false (some "c1.gt.txt") 0 0 sNew =
      FileStep.contStep { sNew with skip := 1, modtype := "mod" } [] ∧
    FileStep.contStep ({ sNew with skip := 1, modtype := "mod" } : Session)
        ([] : List GitEffect) ≠
      FileStep.contStep { sNew with skip := 1 } [] := by
  constructor
  · decide
  · decide

/-- Claim C6 (amended): for a queued tracked file whose original and working
text are identical, with skip-clean-copies on and auto-stage off and a
decodable diff, the file is neither staged nor shown: the loop step
continues with no effects, the skip cursor grows by exactly one, the queue
is unchanged, and apart from the modification-type field being reset to its
default value "mod" no other session field changes. -/
theorem clean_copy_skip_frame
    (repo : Repo) (dh : Bool) (fn : String) (item : FileInfo) (ab t : String)
    (fidx nc : Nat) (s : Session)
    (hfind : repo.files.find? (fun f => f.path == fn) = some item)
    (hab : item.aBlob = some ab)
    (heq : item.worktext = ab)
    (hnew : item.newFile = false) (hdel : item.deletedFile = false)
    (hbp : item.bPath ≠ none)
    (hne : lstripSp ab ≠ "")
    (hmerge : containsSub "<<<<<<< HEAD\n".toList (lstripSp ab).toList = false)
    (hdec : item.diffRaw = Except.ok t)
    (hskip : s.skipcc = true) (haddcc : s.addcc = false) :
    gtcheckFile repo dh (some fn) fidx nc s =
      FileStep.contStep { s with skip := s.skip + 1, modtype := "mod" } [] := by
  have hgd : get_difftext (lstripSp ab) item = (joinTail t, []) := by
    rw [get_difftext, if_neg (fun hc => by rw [hmerge] at hc; exact Bool.false_ne_true hc),
      hdec]
  simp only [gtcheckFile, hfind, hab, hgd, heq]
  simp [hnew, hdel, hne, hbp, hskip, haddcc]

/-- Witness for C5 on a concrete file whose diff decode and fallback both
fail. -/
theorem decode_fallback_failure_recovered_witness :
    get_difftext (lstripSp "foo") badFile =
      ("", ["File:" ++ badFile.path ++ " Warning the diff text could not be decoded! Error:" ++ "utf8",
            "File:" ++ badFile.path ++ " Both files could not be compared! Error:" ++ "cmp"]) ∧
    ∃ p s', gtcheckFile repoBad false (some "bad.gt.txt") 0 0 sA =
        FileStep.shownStep p s'
          [GitEffect.warn ("File:" ++ badFile.path ++
             " Warning the diff text could not be decoded! Error:" ++ "utf8"),
           GitEffect.warn ("File:" ++ badFile.path ++
             " Both files could not be compared! Error:" ++ "cmp")] ∧
      p.diffcolored = "" ∧ p.shown = some badFile.path :=
  decode_fallback_failure_recovered repoBad false "bad.gt.txt" badFile "foo" "utf8" "cmp"
    0 0 sA (by decide) (by decide) (by decide) (by decide) (by decide) (by decide)
    (by decide) (by decide) (by decide) (by decide)

/-- Witness for C6 on a concrete clean-copy file. -/
theorem clean_copy_skip_frame_witness :
    gtcheckFile repoClean false (some "c1.gt.txt") 0 0 sCc =
      FileStep.contStep { sCc with skip := sCc.skip + 1, modtype := "mod" } [] :=
  clean_copy_skip_frame repoClean false "c1.gt.txt" cleanFile "same" "@@h\n" 0 0 sCc
    (by decide) (by decide) (by decide) (by decide) (by decide) (by decide) (by decide)
    (by decide) (by decide) (by decide) (by decide)

theorem gtcheckFile_ok (repo : Repo) (dh : Bool) (fn? : Option String)
    (fidx nc : Nat) (s : Session) :
    FileStepOK s fidx nc (gtcheckFile repo dh fn? fidx nc s) := by
  cases fn? with
  | none => simp [gtcheckFile, FileStepOK]
  | some fn =>
    simp only [gtcheckFile]
    split
    · simp [FileStepOK]
    · split
      · simp [FileStepOK]
      · split
        · simp [FileStepOK]
        · split_ifs <;> simp_all [FileStepOK]

/-! ## Claim C9: the merge branch of the presentation loop is dead -/

/-- The loop never leaves a session whose modification type is "merge":
the local mergetext list is the empty list, so the guarded branch cannot
run, and every value actually assigned is "mod", "new" or "del". -/
theorem gtcheckLoop_modtype (repo : Repo) (dh : Bool) :
    ∀ (snap : List (Option String)) (fidx nc : Nat) (s : Session) (effs : List GitEffect),
      s.modtype ≠ "merge" →
      (match gtcheckLoop repo dh snap fidx nc s effs with
       | .shownRes _ s' _ => s'.modtype ≠ "merge"
       | .exhaust s' _ => s'.modtype ≠ "merge"
       | .errorRes _ => True) := by
  intro snap
  induction snap with
  | nil => intro fidx nc s effs h; exact h
  | cons f rest ih =>
    intro fidx nc s effs h
    have hok := gtcheckFile_ok repo dh f fidx nc s
    rw [gtcheckLoop]
    cases hstep : gtcheckFile repo dh f fidx nc s with
    | errStep => trivial
    | contStep s2 e =>
      rw [hstep] at hok
      have hmt : s2.modtype ≠ "merge" := by
        rcases hok.2.1 with hm | hm | hm | hm <;> rw [hm]
        · exact h
        · decide
        · decide
        · decide
      exact ih (fidx + 1) (nc + 1) s2 (effs ++ e) hmt
    | shownStep p s2 e =>
      rw [hstep] at hok
      have hmt : s2.modtype ≠ "merge" := by
        rcases hok.2.2.2.2 with hm | hm | hm <;> rw [hm] <;> decide
      exact hmt

/-- Claim C9: in the file-presentation loop the local mergetext list is
always empty when the guarded branch is reached, so the branch that would
set the modification type to "merge" never runs: whenever gtcheck completes
a request from a session whose modification type is not "merge", the
resulting session modification type is still not "merge". -/
theorem modtype_never_merge :
    ∀ (fuel : Nat) (repo : Repo) (s : Session) (effs : List GitEffect),
      s.modtype ≠ "merge" →
      ∀ s', (gtcheckGo fuel repo s effs).stateOf = some s' → s'.modtype ≠ "merge" := by
  intro fuel
  induction fuel with
  | zero => intro repo s effs _ s' hs'; simp [gtcheckGo, Outcome.stateOf] at hs'
  | succ f ih =>
    intro repo s effs h s' hs'
    rw [gtcheckGo] at hs'
    have hreb : (rebuildQueue repo s).modtype = s.modtype := by
      simp only [rebuildQueue]; split_ifs <;> rfl
    have hmt1 : (rebuildQueue repo s).modtype ≠ "merge" := by rw [hreb]; exact h
    have hloop := gtcheckLoop_modtype repo (repo.diffhead ≠ "")
      ((rebuildQueue repo s).difflist.drop (rebuildQueue repo s).skip) 0 0
      (rebuildQueue repo s) effs hmt1
    cases hrun : gtcheckLoop repo (repo.diffhead ≠ "")
        ((rebuildQueue repo s).difflist.drop (rebuildQueue repo s).skip) 0 0
        (rebuildQueue repo s) effs with
    | shownRes p s2 e =>
      rw [hrun] at hs' hloop
      replace hs' : (Outcome.render p s2 e).stateOf = some s' := hs'
      simp [Outcome.stateOf] at hs'
      rw [← hs']
      exact hloop
    | errorRes e =>
      rw [hrun] at hs'
      replace hs' : (Outcome.errorOut e).stateOf = some s' := hs'
      simp [Outcome.stateOf] at hs'
    | exhaust s2 e =>
      rw [hrun] at hs' hloop
      replace hs' : (if repo.diffhead ≠ "" then
          Outcome.render (exhaustPage repo s2) { s2 with difflen := (s2.skip : Int) } e
        else if s2.difflist = [] then Outcome.nofile s2 e
        else gtcheckGo f repo { s2 with skip := 0 } e).stateOf = some s' := hs'
      by_cases hdh : repo.diffhead ≠ ""
      · rw [if_pos hdh] at hs'
        simp [Outcome.stateOf] at hs'
        rw [← hs']
        exact hloop
      · rw [if_neg hdh] at hs'
        by_cases hempty : s2.difflist = []
        · rw [if_pos hempty] at hs'
          simp [Outcome.stateOf] at hs'
          rw [← hs']
          exact hloop
        · rw [if_neg hempty] at hs'
          exact ih repo { s2 with skip := 0 } e hloop s' hs'

/-- Witness for C9: the initial session run through gtcheck on the concrete
repository ends with a modification type other than "merge". -/
theorem modtype_never_merge_witness :
    (((gtcheckGo 10 repo0 sInit []).stateOf).getD sInit).modtype ≠ "merge" :=
  modtype_never_merge 10 repo0 sInit [] (by decide) _ (by decide)

/-! ## Claim C2: the queue and remaining-count invariant -/

theorem pop_idx_nil {α : Type} (i : Nat) : pop_idx ([] : List α) i = [] := by
  rw [pop_idx]; simp

theorem pop_idx_length_le {α : Type} (l : List α) (i : Nat) :
    (pop_idx l i).length ≤ l.length := by
  rw [pop_idx]
  split_ifs with h
  · have := List.length_eraseIdx_add_one h
    omega
  · exact Nat.le_refl _

theorem pop_idx_length_ge {α : Type} (l : List α) (i : Nat) :
    l.length ≤ (pop_idx l i).length + 1 := by
  rw [pop_idx]
  split_ifs with h
  · have := List.length_eraseIdx_add_one h
    omega
  · omega

theorem pop_idx_length_eq {α : Type} (l : List α) (i : Nat) (h : i < l.length) :
    (pop_idx l i).length + 1 = l.length := by
  rw [pop_idx, if_pos h]
  exact List.length_eraseIdx_add_one h

/-- Loop preservation: starting a pass over the snapshot difflist[skip:]
with the counters consistent, every rendered state satisfies the invariant
and the exhausted state keeps the counters consistent. -/
theorem gtcheckLoop_inv (repo : Repo) (dh : Bool) :
    ∀ (snap : List (Option String)) (fidx nc : Nat) (s : Session) (effs : List GitEffect),
      fidx = nc →
      s.skip + snap.length ≤ s.difflist.length →
      (s.skip : Int) + snap.length ≤ s.difflen →
      ((s.difflist.length : Int) ≤ s.difflen) →
      (match gtcheckLoop repo dh snap fidx nc s effs with
       | .shownRes _ s' _ => SessionInv s'
       | .exhaust s' _ => s'.skip ≤ s'.difflist.length ∧ (s'.skip : Int) ≤ s'.difflen ∧
           ((s'.difflist.length : Int) ≤ s'.difflen)
       | .errorRes _ => True) := by
  intro snap
  induction snap with
  | nil =>
    intro fidx nc s effs _ h1 h2 h3
    exact ⟨by simpa using h1, by simpa using h2, h3⟩
  | cons f rest ih =>
    intro fidx nc s effs hfn h1 h2 h3
    have hok := gtcheckFile_ok repo dh f fidx nc s
    rw [gtcheckLoop]
    cases hstep : gtcheckFile repo dh f fidx nc s with
    | errStep => trivial
    | contStep s2 e =>
      rw [hstep] at hok
      obtain ⟨hdl, _, hcase⟩ := hok
      simp only [List.length_cons] at h1 h2
      rcases hcase with ⟨hsk, hdlist⟩ | ⟨hsk, hdlist⟩
      · refine ih (fidx + 1) (nc + 1) s2 (effs ++ e) (by omega) ?_ ?_ ?_
        · rw [hsk, hdlist]
          have := pop_idx_length_ge s.difflist (s.skip + fidx)
          omega
        · rw [hsk, hdl]
          push_cast at h2 ⊢
          omega
        · rw [hdl, hdlist]
          have := pop_idx_length_le s.difflist (s.skip + fidx)
          have hcast : ((pop_idx s.difflist (s.skip + fidx)).length : Int) ≤
              (s.difflist.length : Int) := by exact_mod_cast this
          omega
      · refine ih (fidx + 1) (nc + 1) s2 (effs ++ e) (by omega) ?_ ?_ ?_
        · rw [hsk, hdlist]
          omega
        · rw [hsk, hdl]
          omega
        · rw [hdl, hdlist]
          exact h3
    | shownStep p s2 e =>
      rw [hstep] at hok
      obtain ⟨hsk, hdlist, hdl, hfi, _⟩ := hok
      simp only [List.length_cons] at h1 h2
      show SessionInv s2
      refine ⟨?_, ?_, Or.inr (Or.inr ⟨?_, ?_⟩)⟩
      · rw [hsk, hdlist]
        omega
      · rw [hsk, hdl]
        omega
      · rw [hdlist, hdl]
        exact h3
      · rw [hsk, hdlist, hfi, hfn]
        simp only [Nat.sub_self]
        omega

/-- gtcheck establishes the invariant: the rebuild repairs any state whose
queue is empty or shorter than the cursor, and every rendered or nofile
outcome satisfies the invariant. -/
theorem gtcheckGo_inv :
    ∀ (fuel : Nat) (repo : Repo) (s : Session) (effs : List GitEffect),
      (s.skip : Int) ≤ s.difflen →
      (s.difflist = [] ∨ s.difflist.length ≤ s.skip ∨ (s.difflist.length : Int) ≤ s.difflen) →
      ∀ s', (gtcheckGo fuel repo s effs).stateOf = some s' → SessionInv s' := by
  intro fuel
  induction fuel with
  | zero => intro repo s effs _ _ s' hs'; simp [gtcheckGo, Outcome.stateOf] at hs'
  | succ f ih =>
    intro repo s effs hpre1 hpre2 s' hs'
    rw [gtcheckGo] at hs'
    have hs1 : (rebuildQueue repo s).skip +
          ((rebuildQueue repo s).difflist.drop (rebuildQueue repo s).skip).length ≤
          (rebuildQueue repo s).difflist.length ∧
        ((rebuildQueue repo s).skip : Int) +
          ((rebuildQueue repo s).difflist.drop (rebuildQueue repo s).skip).length ≤
          (rebuildQueue repo s).difflen ∧
        (((rebuildQueue repo s).difflist.length : Int) ≤ (rebuildQueue repo s).difflen) := by
      simp only [rebuildQueue]
      split_ifs with hcond hshort
      · simp only [List.length_drop, List.length_replicate]
        refine ⟨by omega, ?_, ?_⟩
        · simp only [Nat.sub_self, Nat.cast_zero]
          omega
        · exact hpre1
      · simp only [List.length_drop, List.length_take, List.length_map]
        have hlt : s.skip < (gtPaths repo).length := by omega
        refine ⟨by omega, by omega, by omega⟩
      · push_neg at hcond
        have hld : (s.difflist.length : Int) ≤ s.difflen := by
          rcases hpre2 with hx | hx | hx
          · exact absurd hx hcond.1
          · exact absurd hx (by omega)
          · exact hx
        simp only [List.length_drop]
        have hsl : s.skip < s.difflist.length := by
          rcases Nat.lt_or_ge s.skip s.difflist.length with hx | hx
          · exact hx
          · exact absurd hx (by omega)
        refine ⟨by omega, by omega, hld⟩
    have hloop := gtcheckLoop_inv repo (repo.diffhead ≠ "")
      ((rebuildQueue repo s).difflist.drop (rebuildQueue repo s).skip) 0 0
      (rebuildQueue repo s) effs rfl hs1.1 hs1.2.1 hs1.2.2
    cases hrun : gtcheckLoop repo (repo.diffhead ≠ "")
        ((rebuildQueue repo s).difflist.drop (rebuildQueue repo s).skip) 0 0
        (rebuildQueue repo s) effs with
    | shownRes p s2 e =>
      rw [hrun] at hs' hloop
      replace hs' : (Outcome.render p s2 e).stateOf = some s' := hs'
      simp [Outcome.stateOf] at hs'
      rw [← hs']
      exact hloop
    | errorRes e =>
      rw [hrun] at hs'
      replace hs' : (Outcome.errorOut e).stateOf = some s' := hs'
      simp [Outcome.stateOf] at hs'
    | exhaust s2 e =>
      rw [hrun] at hs' hloop
      obtain ⟨hx1, hx2, hx3⟩ := hloop
      replace hs' : (if repo.diffhead ≠ "" then
          Outcome.render (exhaustPage repo s2) { s2 with difflen := (s2.skip : Int) } e
        else if s2.difflist = [] then Outcome.nofile s2 e
        else gtcheckGo f repo { s2 with skip := 0 } e).stateOf = some s' := hs'
      by_cases hdh : repo.diffhead ≠ ""
      · rw [if_pos hdh] at hs'
        simp [Outcome.stateOf] at hs'
        rw [← hs']
        exact ⟨hx1, by simp, Or.inl (by simp)⟩
      · rw [if_neg hdh] at hs'
        by_cases hempty : s2.difflist = []
        · rw [if_pos hempty] at hs'
          simp [Outcome.stateOf] at hs'
          rw [← hs']
          exact ⟨hx1, hx2, Or.inr (Or.inl hempty)⟩
        · rw [if_neg hempty] at hs'
          refine ih repo { s2 with skip := 0 } e ?_ ?_ s' hs'
          · simp only [Nat.cast_zero]
            omega
          · right; right
            simpa using hx3

/-- Every gtcheckedit transition from an invariant state completing with a
rendered or nofile outcome yields an invariant state. -/
theorem gtcheckedit_inv (fuel : Nat) (repo : Repo) (s : Session) (form : Form)
    (h : SessionInv s) :
    ∀ s', (gtcheckeditGo fuel repo s form).stateOf = some s' → SessionInv s' := by
  intro s' hs'
  rw [gtcheckeditGo] at hs'
  by_cases h0 : s.difflen - (s.skip : Int) = 0
  · rw [if_pos h0] at hs'
    refine gtcheckGo_inv fuel repo _ _ ?_ ?_ s' hs'
    · exact h.2.1
    · exact Or.inl rfl
  · rw [if_neg h0] at hs'
    have hA : (s.skip : Int) < s.difflen := by
      have := h.2.1
      omega
    have hL : (s.difflist.length : Int) ≤ s.difflen := by
      rcases h.2.2 with hx | hx | hx
      · omega
      · rw [hx]
        simp only [List.length_nil, Nat.cast_zero]
        omega
      · exact hx.1
    have hpop : s.skip + s.fileidx < s.difflist.length ∨ s.difflist = [] := by
      rcases h.2.2 with hx | hx | hx
      · omega
      · exact Or.inr hx
      · exact Or.inl hx.2
    have hpoplen : ((pop_idx s.difflist (s.skip + s.fileidx)).length : Int) + 1 ≤
        s.difflen ∨ s.difflist = [] := by
      rcases hpop with hx | hx
      · left
        have := pop_idx_length_eq s.difflist (s.skip + s.fileidx) hx
        omega
      · exact Or.inr hx
    have hpople : ((pop_idx s.difflist (s.skip + s.fileidx)).length : Int) ≤ s.difflen := by
      have := pop_idx_length_le s.difflist (s.skip + s.fileidx)
      have hcast : ((pop_idx s.difflist (s.skip + s.fileidx)).length : Int) ≤
          (s.difflist.length : Int) := by exact_mod_cast this
      omega
    simp only [] at hs'
    by_cases hu : form.undo <;> simp only [hu, if_true, if_false] at hs' <;>
      by_cases hc : form.selection = "commit"
    · -- undo, commit
      simp only [hc, if_pos rfl] at hs'
      split_ifs at hs'
      all_goals refine gtcheckGo_inv fuel repo _ _ ?_ ?_ s' hs'
      all_goals first
        | (left; simp [pop_idx_nil])
        | (simp; omega)
    · -- undo, not commit
      rw [if_neg hc] at hs'
      by_cases hst : form.selection = "stash"
      · simp only [hst, if_pos rfl] at hs'
        refine gtcheckGo_inv fuel repo _ _ ?_ ?_ s' hs'
        · simp
          omega
        · right; right
          simp
          omega
      · rw [if_neg hst] at hs'
        by_cases had : form.selection = "add"
        · simp only [had, if_pos rfl] at hs'
          refine gtcheckGo_inv fuel repo _ _ ?_ ?_ s' hs'
          · simp
            omega
          · right; right
            simp
            rcases hpoplen with hx | hx
            · omega
            · rw [hx]
              simp [pop_idx_nil]
              omega
        · rw [if_neg had] at hs'
          refine gtcheckGo_inv fuel repo _ _ ?_ ?_ s' hs'
          · simp
            omega
          · right; right
            simp
            omega
    · -- no undo, commit
      simp only [hc, if_pos rfl] at hs'
      split_ifs at hs'
      all_goals refine gtcheckGo_inv fuel repo _ _ ?_ ?_ s' hs'
      all_goals first
        | (left; simp [pop_idx_nil])
        | (simp; omega)
    · -- no undo, not commit
      rw [if_neg hc] at hs'
      by_cases hst : form.selection = "stash"
      · simp only [hst, if_pos rfl] at hs'
        refine gtcheckGo_inv fuel repo _ _ ?_ ?_ s' hs'
        · simp
          omega
        · right; right
          simp
          omega
      · rw [if_neg hst] at hs'
        by_cases had : form.selection = "add"
        · simp only [had, if_pos rfl] at hs'
          refine gtcheckGo_inv fuel repo _ _ ?_ ?_ s' hs'
          · simp
            omega
          · right; right
            simp
            rcases hpoplen with hx | hx
            · omega
            · rw [hx]
              simp [pop_idx_nil]
              omega
        · rw [if_neg had] at hs'
          refine gtcheckGo_inv fuel repo _ _ ?_ ?_ s' hs'
          · simp
            omega
          · right; right
            simp
            omega

/-- Apply the invariant through a whole sequence of gtcheckedit requests. -/
theorem runSteps_inv (fuel : Nat) :
    ∀ (steps : List (Repo × Form)) (s : Session), SessionInv s →
      ∀ s', runSteps fuel steps s = some s' → SessionInv s' := by
  intro steps
  induction steps with
  | nil =>
    intro s h s' hs'
    rw [runSteps] at hs'
    cases hs'
    exact h
  | cons rf rest ih =>
    obtain ⟨r, fm⟩ := rf
    intro s h s' hs'
    rw [runSteps] at hs'
    cases hout : gtcheckeditGo fuel r s fm with
    | render p s2 e =>
      rw [hout] at hs'
      exact ih s2 (gtcheckedit_inv fuel r s fm h s2 (by rw [hout]; rfl)) s' hs'
    | nofile s2 e =>
      rw [hout] at hs'
      exact ih s2 (gtcheckedit_inv fuel r s fm h s2 (by rw [hout]; rfl)) s' hs'
    | errorOut e =>
      rw [hout] at hs'
      cases hs'
    | fuelOut e =>
      rw [hout] at hs'
      cases hs'

/-- Claim C2: after any sequence of skip, commit, stash and add transitions
started from a session satisfying the invariant, every completed request
leaves the skip cursor at most the queue length (the queue being reset or
cleared whenever the cursor would pass its end is part of the transition
functions) and a non-negative remaining-file count difflen minus skip. -/
theorem session_invariant_preserved (fuel : Nat) (steps : List (Repo × Form))
    (s0 : Session) (h0 : SessionInv s0) :
    ∀ s', runSteps fuel steps s0 = some s' →
      s'.skip ≤ s'.difflist.length ∧ 0 ≤ s'.difflen - (s'.skip : Int) := by
  intro s' hs'
  have h := runSteps_inv fuel steps s0 h0 s' hs'
  refine ⟨h.1, ?_⟩
  have := h.2.1
  omega

/-- Witness for C2 running two concrete transitions (a skip and a commit)
from the concrete presenting session. -/
theorem session_invariant_preserved_witness :
    (((runSteps 10 [(repo0, formSkip), (repo0, formCommit)] sA).getD sInit).skip ≤
      ((runSteps 10 [(repo0, formSkip), (repo0, formCommit)] sA).getD sInit).difflist.length) ∧
    0 ≤ ((runSteps 10 [(repo0, formSkip), (repo0, formCommit)] sA).getD sInit).difflen -
      (((runSteps 10 [(repo0, formSkip), (repo0, formCommit)] sA).getD sInit).skip : Int) :=
  session_invariant_preserved 10 [(repo0, formSkip), (repo0, formCommit)] sA
    (by decide) _ (by decide)

end GTCheck
